import Mathlib

/-
Shallow embedding of the ink! ERC-721 contract in `src/erc721/lib.rs`
(module `erc721`).

Modelling conventions:
* `AccountId` (a 32-byte array in the source) is modelled as `Nat`; the
  all-zero account `AccountId::from([0x0; 32])` is `nullAccount = 0`.
* `TokenId = u32` and the balance counters (`u32`) are modelled as `Nat`.
  The only subtraction sites (`c - 1` in `burn` and `remove_token_from`)
  are exercised by the theorems below only with `c ≥ 1`, where `Nat`
  subtraction agrees with `u32` subtraction.
* `ink::storage::Mapping` is modelled as a total function returning
  `Option` (or `Bool` for the unit-valued operator map): `get` is
  application, `insert`/`remove` are pointwise updates, `contains` is
  `isSome`.
* An ink! message that returns `Err` (or traps on a panic) reverts every
  storage write made during the call, so at the public-message boundary an
  error leaves the ledger exactly as it was.  `MsgResult` therefore
  carries a state only in the `ok` case; `err`/`panic` mean "state
  unchanged".  The `expect` calls in `approved_or_owner`/`approve_for`
  are the panic sources and are modelled explicitly.
-/

abbrev AccountId : Type := Nat

abbrev TokenId : Type := Nat

/-- Model of `AccountId::from([0x0; 32])`, the all-zero (null) account. -/
def nullAccount : AccountId := 0

/-- Model of the error enum of the contract. -/
inductive Error where
  | NotOwner
  | NotApproved
  | TokenExists
  | TokenNotFound
  | CannotInsert
  | CannotFetchValue
  | NotAllowed
deriving DecidableEq

/-- Model of the `Erc721` storage struct: four mappings plus the id counter. -/
@[ext]
structure Erc721 where
  token_owner : TokenId → Option AccountId
  token_approvals : TokenId → Option AccountId
  owned_tokens_count : AccountId → Option Nat
  operator_approvals : AccountId × AccountId → Bool
  token_id : TokenId

/-- Result of one public message: on `Err` or a panic the ink! host reverts
all storage writes, so only the `ok` case carries a state. -/
inductive MsgResult where
  | ok (s : Erc721)
  | err (e : Error)
  | panic

/-- Model of the constructor `Erc721::new`: empty mappings, counter at 1. -/
def Erc721.new : Erc721 :=
  { token_owner := fun _ => none
    token_approvals := fun _ => none
    owned_tokens_count := fun _ => none
    operator_approvals := fun _ => false
    token_id := 1 }

/-- Model of `balance_of` / `balance_of_or_zero`. -/
def balance_of (s : Erc721) (owner : AccountId) : Nat :=
  (s.owned_tokens_count owner).getD 0

/-- Model of `owner_of`. -/
def owner_of (s : Erc721) (id : TokenId) : Option AccountId :=
  s.token_owner id

/-- Model of `get_approved`. -/
def get_approved (s : Erc721) (id : TokenId) : Option AccountId :=
  s.token_approvals id

/-- Model of the private query `approved_for_all` (and of the public
`is_approved_for_all`). -/
def approved_for_all (s : Erc721) (owner operator : AccountId) : Bool :=
  s.operator_approvals (owner, operator)

/-- Model of the private `exists` check (`token_owner.contains id`). -/
def exists_ (s : Erc721) (id : TokenId) : Bool :=
  (s.token_owner id).isSome

/-- Model of `add_token_to`. -/
def add_token_to (s : Erc721) (to_ : AccountId) (id : TokenId) : Except Error Erc721 :=
  if (s.token_owner id).isSome then .error .TokenExists
  else if to_ = nullAccount then .error .NotAllowed
  else
    let count : Nat :=
      match s.owned_tokens_count to_ with
      | some c => c + 1
      | none => 1
    .ok { s with
          owned_tokens_count := fun a => if a = to_ then some count else s.owned_tokens_count a
          token_owner := fun i => if i = id then some to_ else s.token_owner i }

/-- Model of `clear_approval` (`token_approvals.remove id`). -/
def clear_approval (s : Erc721) (id : TokenId) : Erc721 :=
  { s with token_approvals := fun j => if j = id then none else s.token_approvals j }

/-- Model of `remove_token_from`. -/
def remove_token_from (s : Erc721) (from_ : AccountId) (id : TokenId) : Except Error Erc721 :=
  if (s.token_owner id).isSome = false then .error .TokenNotFound
  else
    match s.owned_tokens_count from_ with
    | none => .error .CannotFetchValue
    | some c =>
      .ok { s with
            owned_tokens_count := fun a => if a = from_ then some (c - 1) else s.owned_tokens_count a
            token_owner := fun i => if i = id then none else s.token_owner i }

/-- Model of `approved_or_owner`.  The Rust `&&`/`||` short-circuiting is
made explicit; `none` models the panic of the two `expect` calls, reached
only when both equality disjuncts fail and the owner (or `from`) is absent. -/
def approved_or_owner (s : Erc721) (from_ : Option AccountId) (id : TokenId) : Option Bool :=
  let owner := owner_of s id
  if from_ = some nullAccount then some false
  else if from_ = owner then some true
  else if from_ = s.token_approvals id then some true
  else
    match owner, from_ with
    | some o, some f => some (approved_for_all s o f)
    | _, _ => none

/-- Model of `transfer_token_from`.  `caller` is `self.env().caller()`. -/
def transfer_token_from (s : Erc721) (caller from_ to_ : AccountId) (id : TokenId) : MsgResult :=
  if exists_ s id = false then .err .TokenNotFound
  else
    match approved_or_owner s (some caller) id with
    | none => .panic
    | some false => .err .NotApproved
    | some true =>
      let s1 := clear_approval s id
      match remove_token_from s1 from_ id with
      | .error e => .err e
      | .ok s2 =>
        match add_token_to s2 to_ id with
        | .error e => .err e
        | .ok s3 => .ok s3

/-- Shared tail of `approve_for` after the authorization check: the null
target check, the single-shot `CannotInsert` check, and the insert. -/
def approve_for_tail (s : Erc721) (to_ : AccountId) (id : TokenId) : MsgResult :=
  if to_ = nullAccount then .err .NotAllowed
  else if (s.token_approvals id).isSome then .err .CannotInsert
  else .ok { s with token_approvals := fun j => if j = id then some to_ else s.token_approvals j }

/-- Model of `approve_for`.  When the owner lookup is `none` the first
disjunct `owner == Some(caller)` is false and `owner.expect(..)` panics. -/
def approve_for (s : Erc721) (caller to_ : AccountId) (id : TokenId) : MsgResult :=
  match owner_of s id with
  | none => .panic
  | some o =>
    if o = caller then approve_for_tail s to_ id
    else if approved_for_all s o caller then approve_for_tail s to_ id
    else .err .NotAllowed

/-- Model of the private mutating `approve_for_all`. -/
def approve_for_all (s : Erc721) (caller to_ : AccountId) (approved : Bool) : Except Error Erc721 :=
  if to_ = caller then .error .NotAllowed
  else if approved then
    .ok { s with operator_approvals := fun p => if p = (caller, to_) then true else s.operator_approvals p }
  else
    .ok { s with operator_approvals := fun p => if p = (caller, to_) then false else s.operator_approvals p }

/-- Model of the public message `mint`. -/
def mint (s : Erc721) (caller : AccountId) : MsgResult :=
  match add_token_to s caller s.token_id with
  | .error e => .err e
  | .ok s' => .ok { s' with token_id := s'.token_id + 1 }

/-- Model of the public message `burn`. -/
def burn (s : Erc721) (caller : AccountId) (id : TokenId) : MsgResult :=
  match s.token_owner id with
  | none => .err .TokenNotFound
  | some owner =>
    if owner ≠ caller then .err .NotOwner
    else
      match s.owned_tokens_count caller with
      | none => .err .CannotFetchValue
      | some c =>
        .ok { s with
              owned_tokens_count := fun a => if a = caller then some (c - 1) else s.owned_tokens_count a
              token_owner := fun i => if i = id then none else s.token_owner i }

/-- Model of the public message `transfer` (its `from` is the caller). -/
def transfer (s : Erc721) (caller to_ : AccountId) (id : TokenId) : MsgResult :=
  transfer_token_from s caller caller to_ id

/-- Model of the public message `transfer_from`. -/
def transfer_from (s : Erc721) (caller from_ to_ : AccountId) (id : TokenId) : MsgResult :=
  transfer_token_from s caller from_ to_ id

/-- Model of the public message `approve`. -/
def approve (s : Erc721) (caller to_ : AccountId) (id : TokenId) : MsgResult :=
  approve_for s caller to_ id

/-- Model of the public message `set_approval_for_all`. -/
def set_approval_for_all (s : Erc721) (caller to_ : AccountId) (approved : Bool) : MsgResult :=
  match approve_for_all s caller to_ approved with
  | .error e => .err e
  | .ok s' => .ok s'

/-- State after a message: the new state on success, the original state on
`err`/`panic` (the host reverts all writes in those cases). -/
def stateAfter (s : Erc721) (r : MsgResult) : Erc721 :=
  match r with
  | .ok s' => s'
  | _ => s

/-- One successful public operation (failed operations leave the state
unchanged under the revert semantics, so they contribute no transitions). -/
inductive Step : Erc721 → Erc721 → Prop where
  | stepMint (s s' : Erc721) (caller : AccountId) (h : mint s caller = .ok s') : Step s s'
  | stepBurn (s s' : Erc721) (caller : AccountId) (id : TokenId)
      (h : burn s caller id = .ok s') : Step s s'
  | stepTransfer (s s' : Erc721) (caller to_ : AccountId) (id : TokenId)
      (h : transfer s caller to_ id = .ok s') : Step s s'
  | stepTransferFrom (s s' : Erc721) (caller from_ to_ : AccountId) (id : TokenId)
      (h : transfer_from s caller from_ to_ id = .ok s') : Step s s'
  | stepApprove (s s' : Erc721) (caller to_ : AccountId) (id : TokenId)
      (h : approve s caller to_ id = .ok s') : Step s s'
  | stepSetApprovalForAll (s s' : Erc721) (caller to_ : AccountId) (approved : Bool)
      (h : set_approval_for_all s caller to_ approved = .ok s') : Step s s'

/-- States reachable from the freshly constructed contract by public
operations. -/
inductive Reachable : Erc721 → Prop where
  | init : Reachable Erc721.new
  | step {s s' : Erc721} : Reachable s → Step s s' → Reachable s'

/-- One successful public operation in which every transfer names the
token's current owner as its `from` account (for `transfer` the caller is
the `from`, so the caller must own the token). -/
inductive GoodStep : Erc721 → Erc721 → Prop where
  | stepMint (s s' : Erc721) (caller : AccountId) (h : mint s caller = .ok s') : GoodStep s s'
  | stepBurn (s s' : Erc721) (caller : AccountId) (id : TokenId)
      (h : burn s caller id = .ok s') : GoodStep s s'
  | stepTransfer (s s' : Erc721) (caller to_ : AccountId) (id : TokenId)
      (hown : owner_of s id = some caller)
      (h : transfer s caller to_ id = .ok s') : GoodStep s s'
  | stepTransferFrom (s s' : Erc721) (caller from_ to_ : AccountId) (id : TokenId)
      (hown : owner_of s id = some from_)
      (h : transfer_from s caller from_ to_ id = .ok s') : GoodStep s s'
  | stepApprove (s s' : Erc721) (caller to_ : AccountId) (id : TokenId)
      (h : approve s caller to_ id = .ok s') : GoodStep s s'
  | stepSetApprovalForAll (s s' : Erc721) (caller to_ : AccountId) (approved : Bool)
      (h : set_approval_for_all s caller to_ approved = .ok s') : GoodStep s s'

/-- States reachable when every transfer passes the current owner as `from`. -/
inductive GoodReachable : Erc721 → Prop where
  | init : GoodReachable Erc721.new
  | step {s s' : Erc721} : GoodReachable s → GoodStep s s' → GoodReachable s'

/-- One successful public operation other than `burn`. -/
inductive NoBurnStep : Erc721 → Erc721 → Prop where
  | stepMint (s s' : Erc721) (caller : AccountId) (h : mint s caller = .ok s') : NoBurnStep s s'
  | stepTransfer (s s' : Erc721) (caller to_ : AccountId) (id : TokenId)
      (h : transfer s caller to_ id = .ok s') : NoBurnStep s s'
  | stepTransferFrom (s s' : Erc721) (caller from_ to_ : AccountId) (id : TokenId)
      (h : transfer_from s caller from_ to_ id = .ok s') : NoBurnStep s s'
  | stepApprove (s s' : Erc721) (caller to_ : AccountId) (id : TokenId)
      (h : approve s caller to_ id = .ok s') : NoBurnStep s s'
  | stepSetApprovalForAll (s s' : Erc721) (caller to_ : AccountId) (approved : Bool)
      (h : set_approval_for_all s caller to_ approved = .ok s') : NoBurnStep s s'

/-- States reachable by burn-free sequences of public operations. -/
inductive NoBurnReachable : Erc721 → Prop where
  | init : NoBurnReachable Erc721.new
  | step {s s' : Erc721} : NoBurnReachable s → NoBurnStep s s' → NoBurnReachable s'

/-- Number of token ids below the allocator whose owner entry is `a`. -/
def cntOwned (s : Erc721) (a : AccountId) : Nat :=
  ((Finset.range s.token_id).filter (fun i => s.token_owner i = some a)).card

/-- Every extant token id lies strictly below the allocator value. -/
def ExtBound (s : Erc721) : Prop :=
  ∀ i, s.token_id ≤ i → s.token_owner i = none

/-- Balance-consistency invariant used in the inductive proofs: the extant
ids are bounded by the allocator and every balance equals the owned count. -/
def InvB (s : Erc721) : Prop :=
  ExtBound s ∧ ∀ a, balance_of s a = cntOwned s a

/-- Approval-implies-extant invariant. -/
def ApEx (s : Erc721) : Prop :=
  ∀ id, (s.token_approvals id).isSome = true → (s.token_owner id).isSome = true

/-- Authorization predicate, written from the specification wording
(§4.2): the candidate is not the null account, and is the owner, or is the
single-approval record, or is an operator of the current owner. -/
def authSpec (s : Erc721) (candidate : AccountId) (id : TokenId) : Prop :=
  candidate ≠ nullAccount ∧
    (some candidate = owner_of s id ∨ some candidate = get_approved s id ∨
      ∃ o, owner_of s id = some o ∧ approved_for_all s o candidate = true)

/-- State after account 1 mints token 1 from the fresh contract. -/
def c1s1 : Erc721 := stateAfter Erc721.new (mint Erc721.new 1)

/-- State after account 2 then mints token 2. -/
def c1s2 : Erc721 := stateAfter c1s1 (mint c1s1 2)

/-- State after account 1 (owner of token 1) calls `transfer_from` naming
account 2 as `from` and account 3 as destination for token 1. -/
def c1bad : Erc721 := stateAfter c1s2 (transfer_from c1s2 1 2 3 1)

/-- State after account 1 mints token 1 from the fresh contract. -/
def c2s1 : Erc721 := stateAfter Erc721.new (mint Erc721.new 1)

/-- State after account 1 approves account 2 for token 1. -/
def c2s2 : Erc721 := stateAfter c2s1 (approve c2s1 1 2 1)

/-- State after account 1 burns token 1 (the approval is not cleared). -/
def c2bad : Erc721 := stateAfter c2s2 (burn c2s2 1 1)

/-- Ledger in which account 5 owns token 1 with balance 1 and account 2
holds the single approval for token 1 (and owns nothing). -/
def c3st : Erc721 :=
  { token_owner := fun i => if i = 1 then some 5 else none
    token_approvals := fun j => if j = 1 then some 2 else none
    owned_tokens_count := fun a => if a = 5 then some 1 else none
    operator_approvals := fun _ => false
    token_id := 2 }

/-- Ledger in which account 5 owns token 1, account 2 holds the single
approval for token 1, and account 2 also has a recorded balance of 1. -/
def c3st2 : Erc721 :=
  { token_owner := fun i => if i = 1 then some 5 else none
    token_approvals := fun j => if j = 1 then some 2 else none
    owned_tokens_count := fun a => if a = 2 then some 1 else if a = 5 then some 1 else none
    operator_approvals := fun _ => false
    token_id := 2 }

/-- Ledger in which account 5 owns token 1 with balance 1 and no
approvals exist. -/
def c4st : Erc721 :=
  { token_owner := fun i => if i = 1 then some 5 else none
    token_approvals := fun _ => none
    owned_tokens_count := fun a => if a = 5 then some 1 else none
    operator_approvals := fun _ => false
    token_id := 2 }

/-- Ledger in which account 5 owns token 1 and account 2 holds the single
approval for token 1. -/
def c5st : Erc721 :=
  { token_owner := fun i => if i = 1 then some 5 else none
    token_approvals := fun j => if j = 1 then some 2 else none
    owned_tokens_count := fun a => if a = 5 then some 1 else none
    operator_approvals := fun _ => false
    token_id := 2 }

/-- Ledger in which account 1 owns token 1 with balance 1 and no approval
exists for token 1. -/
def c6st : Erc721 :=
  { token_owner := fun i => if i = 1 then some 1 else none
    token_approvals := fun _ => none
    owned_tokens_count := fun a => if a = 1 then some 1 else none
    operator_approvals := fun _ => false
    token_id := 2 }

/-- Ledger in which account 5 owns token 1 and an approval record for
token 1 already exists (held by account 2). -/
def c7st1 : Erc721 :=
  { token_owner := fun i => if i = 1 then some 5 else none
    token_approvals := fun j => if j = 1 then some 2 else none
    owned_tokens_count := fun a => if a = 5 then some 1 else none
    operator_approvals := fun _ => false
    token_id := 2 }

/-- Ledger in which account 5 owns token 1 and no approval record exists. -/
def c7st2 : Erc721 :=
  { token_owner := fun i => if i = 1 then some 5 else none
    token_approvals := fun _ => none
    owned_tokens_count := fun a => if a = 5 then some 1 else none
    operator_approvals := fun _ => false
    token_id := 2 }

/-- The `unwrap_or(1)` increment in `add_token_to` equals the default-0
balance plus one. -/
theorem count_succ (s : Erc721) (a : AccountId) :
    (match s.owned_tokens_count a with | some c => c + 1 | none => 1) = balance_of s a + 1 := by
  unfold balance_of
  cases s.owned_tokens_count a <;> rfl

/-- Inversion of a successful `add_token_to`. -/
theorem add_token_to_ok {s s' : Erc721} {to_ : AccountId} {id : TokenId}
    (h : add_token_to s to_ id = Except.ok s') :
    s.token_owner id = none ∧ to_ ≠ nullAccount ∧
    s'.token_owner = (fun i => if i = id then some to_ else s.token_owner i) ∧
    s'.owned_tokens_count =
      (fun a => if a = to_ then some (balance_of s to_ + 1) else s.owned_tokens_count a) ∧
    s'.token_approvals = s.token_approvals ∧
    s'.operator_approvals = s.operator_approvals ∧
    s'.token_id = s.token_id := by
  by_cases h1 : (s.token_owner id).isSome
  · simp [add_token_to, h1] at h
  · by_cases h2 : to_ = nullAccount
    · simp [add_token_to, h1, h2] at h
    · have hnone : s.token_owner id = none := Option.not_isSome_iff_eq_none.mp h1
      cases hc : s.owned_tokens_count to_ with
      | none =>
        simp [add_token_to, h1, h2, hc] at h
        subst h
        refine ⟨hnone, h2, rfl, ?_, rfl, rfl, rfl⟩
        funext a
        simp [balance_of, hc]
      | some c =>
        simp [add_token_to, h1, h2, hc] at h
        subst h
        refine ⟨hnone, h2, rfl, ?_, rfl, rfl, rfl⟩
        funext a
        simp [balance_of, hc]

/-- Inversion of a successful `remove_token_from`. -/
theorem remove_token_from_ok {s s' : Erc721} {from_ : AccountId} {id : TokenId}
    (h : remove_token_from s from_ id = Except.ok s') :
    (s.token_owner id).isSome = true ∧
    ∃ c, s.owned_tokens_count from_ = some c ∧
      s'.token_owner = (fun i => if i = id then none else s.token_owner i) ∧
      s'.owned_tokens_count =
        (fun a => if a = from_ then some (c - 1) else s.owned_tokens_count a) ∧
      s'.token_approvals = s.token_approvals ∧
      s'.operator_approvals = s.operator_approvals ∧
      s'.token_id = s.token_id := by
  by_cases h1 : (s.token_owner id).isSome
  · cases hc : s.owned_tokens_count from_ with
    | none => simp [remove_token_from, h1, hc] at h
    | some c =>
      simp [remove_token_from, h1, hc] at h
      subst h
      exact ⟨h1, c, rfl, rfl, rfl, rfl, rfl, rfl⟩
  · simp [remove_token_from, h1] at h

/-- Inversion of a successful `burn`. -/
theorem burn_ok {s s' : Erc721} {caller : AccountId} {id : TokenId}
    (h : burn s caller id = MsgResult.ok s') :
    s.token_owner id = some caller ∧
    ∃ c, s.owned_tokens_count caller = some c ∧
      s'.token_owner = (fun i => if i = id then none else s.token_owner i) ∧
      s'.owned_tokens_count =
        (fun a => if a = caller then some (c - 1) else s.owned_tokens_count a) ∧
      s'.token_approvals = s.token_approvals ∧
      s'.operator_approvals = s.operator_approvals ∧
      s'.token_id = s.token_id := by
  cases ho : s.token_owner id with
  | none => simp [burn, ho] at h
  | some o =>
    by_cases he : o = caller
    · subst he
      cases hc : s.owned_tokens_count o with
      | none => simp [burn, ho, hc] at h
      | some c =>
        simp [burn, ho, hc] at h
        subst h
        exact ⟨rfl, c, rfl, rfl, rfl, rfl, rfl, rfl⟩
    · simp [burn, ho, he] at h

/-- Inversion of a successful `mint`. -/
theorem mint_ok {s s' : Erc721} {caller : AccountId}
    (h : mint s caller = MsgResult.ok s') :
    s.token_owner s.token_id = none ∧ caller ≠ nullAccount ∧
    s'.token_owner = (fun i => if i = s.token_id then some caller else s.token_owner i) ∧
    s'.owned_tokens_count =
      (fun a => if a = caller then some (balance_of s caller + 1) else s.owned_tokens_count a) ∧
    s'.token_approvals = s.token_approvals ∧
    s'.operator_approvals = s.operator_approvals ∧
    s'.token_id = s.token_id + 1 := by
  unfold mint at h
  cases ha : add_token_to s caller s.token_id with
  | error e => rw [ha] at h; cases h
  | ok t =>
    rw [ha] at h
    obtain ⟨h1, h2, h3, h4, h5, h6, h7⟩ := add_token_to_ok ha
    have h8 := MsgResult.ok.inj h
    subst h8
    exact ⟨h1, h2, h3, h4, h5, h6, by rw [h7]⟩

/-- Inversion of a successful `approve_for_tail`. -/
theorem approve_for_tail_ok {s s' : Erc721} {to_ : AccountId} {id : TokenId}
    (h : approve_for_tail s to_ id = MsgResult.ok s') :
    to_ ≠ nullAccount ∧ s.token_approvals id = none ∧
    s'.token_owner = s.token_owner ∧
    s'.owned_tokens_count = s.owned_tokens_count ∧
    s'.operator_approvals = s.operator_approvals ∧
    s'.token_id = s.token_id ∧
    s'.token_approvals = (fun j => if j = id then some to_ else s.token_approvals j) := by
  by_cases h1 : to_ = nullAccount
  · simp [approve_for_tail, h1] at h
  · by_cases h2 : (s.token_approvals id).isSome
    · simp [approve_for_tail, h1, h2] at h
    · simp [approve_for_tail, h1, h2] at h
      subst h
      exact ⟨h1, Option.not_isSome_iff_eq_none.mp h2, rfl, rfl, rfl, rfl, rfl⟩

/-- Inversion of a successful `approve` (`approve_for`). -/
theorem approve_for_ok {s s' : Erc721} {caller to_ : AccountId} {id : TokenId}
    (h : approve_for s caller to_ id = MsgResult.ok s') :
    (∃ o, s.token_owner id = some o ∧ (o = caller ∨ approved_for_all s o caller = true)) ∧
    to_ ≠ nullAccount ∧ s.token_approvals id = none ∧
    s'.token_owner = s.token_owner ∧
    s'.owned_tokens_count = s.owned_tokens_count ∧
    s'.operator_approvals = s.operator_approvals ∧
    s'.token_id = s.token_id ∧
    s'.token_approvals = (fun j => if j = id then some to_ else s.token_approvals j) := by
  unfold approve_for owner_of at h
  cases ho : s.token_owner id with
  | none => simp only [ho] at h; cases h
  | some o =>
    simp only [ho] at h
    by_cases h1 : o = caller
    · rw [if_pos h1] at h
      obtain ⟨g1, g2, g3, g4, g5, g6, g7⟩ := approve_for_tail_ok h
      exact ⟨⟨o, rfl, Or.inl h1⟩, g1, g2, g3, g4, g5, g6, g7⟩
    · rw [if_neg h1] at h
      by_cases h2 : approved_for_all s o caller
      · rw [if_pos h2] at h
        obtain ⟨g1, g2, g3, g4, g5, g6, g7⟩ := approve_for_tail_ok h
        exact ⟨⟨o, rfl, Or.inr h2⟩, g1, g2, g3, g4, g5, g6, g7⟩
      · rw [if_neg h2] at h
        cases h

/-- Inversion of a successful `set_approval_for_all`. -/
theorem set_approval_for_all_ok {s s' : Erc721} {caller to_ : AccountId} {approved : Bool}
    (h : set_approval_for_all s caller to_ approved = MsgResult.ok s') :
    to_ ≠ caller ∧
    s'.token_owner = s.token_owner ∧
    s'.token_approvals = s.token_approvals ∧
    s'.owned_tokens_count = s.owned_tokens_count ∧
    s'.token_id = s.token_id ∧
    s'.operator_approvals =
      (fun p => if p = (caller, to_) then approved else s.operator_approvals p) := by
  unfold set_approval_for_all approve_for_all at h
  by_cases h1 : to_ = caller
  · rw [if_pos h1] at h; cases h
  · rw [if_neg h1] at h
    cases approved with
    | true =>
      rw [if_pos rfl] at h
      have h2 := MsgResult.ok.inj h
      subst h2
      exact ⟨h1, rfl, rfl, rfl, rfl, rfl⟩
    | false =>
      rw [if_neg (by simp)] at h
      have h2 := MsgResult.ok.inj h
      subst h2
      exact ⟨h1, rfl, rfl, rfl, rfl, rfl⟩

/-- Inversion of a successful `transfer_token_from` (hence of `transfer`
and `transfer_from`). -/
theorem transfer_token_from_ok {s s' : Erc721} {caller from_ to_ : AccountId} {id : TokenId}
    (h : transfer_token_from s caller from_ to_ id = MsgResult.ok s') :
    (s.token_owner id).isSome = true ∧
    approved_or_owner s (some caller) id = some true ∧
    to_ ≠ nullAccount ∧
    ∃ c, s.owned_tokens_count from_ = some c ∧
      s'.token_owner = (fun i => if i = id then some to_ else s.token_owner i) ∧
      s'.token_approvals = (fun j => if j = id then none else s.token_approvals j) ∧
      s'.owned_tokens_count =
        (fun a => if a = to_ then some ((if to_ = from_ then c - 1 else balance_of s to_) + 1)
                  else if a = from_ then some (c - 1) else s.owned_tokens_count a) ∧
      s'.operator_approvals = s.operator_approvals ∧
      s'.token_id = s.token_id := by
  unfold transfer_token_from at h
  by_cases h1 : exists_ s id = false
  · rw [if_pos h1] at h; cases h
  · rw [if_neg h1] at h
    have hx : (s.token_owner id).isSome = true := by
      unfold exists_ at h1
      exact Bool.not_eq_false _ |>.mp h1
    cases hao : approved_or_owner s (some caller) id with
    | none => rw [hao] at h; cases h
    | some b =>
      rw [hao] at h
      cases b with
      | false => simp at h
      | true =>
        simp only at h
        cases hr : remove_token_from (clear_approval s id) from_ id with
        | error e => rw [hr] at h; cases h
        | ok s2 =>
          rw [hr] at h
          simp only at h
          obtain ⟨r1, c, r2, r3, r4, r5, r6, r7⟩ := remove_token_from_ok hr
          cases hadd : add_token_to s2 to_ id with
          | error e => rw [hadd] at h; cases h
          | ok s3 =>
            rw [hadd] at h
            have h2 := MsgResult.ok.inj h
            subst h2
            obtain ⟨a1, a2, a3, a4, a5, a6, a7⟩ := add_token_to_ok hadd
            refine ⟨hx, rfl, a2, c, r2, ?_, ?_, ?_, ?_, ?_⟩
            · rw [a3, r3]
              funext i
              by_cases hi : i = id <;> simp [hi, clear_approval]
            · rw [a5, r5]
              funext j
              by_cases hj : j = id <;> simp [hj, clear_approval]
            · rw [a4, r4]
              funext a
              have hb2 : balance_of s2 to_ = if to_ = from_ then c - 1 else balance_of s to_ := by
                unfold balance_of
                rw [r4]
                by_cases ht : to_ = from_ <;> simp [ht, clear_approval]
              by_cases ha : a = to_ <;> simp [ha, hb2, clear_approval]
            · rw [a6, r6]
              rfl
            · rw [a7, r7]
              rfl

/-- Changing an owner table at one point of the range shifts the two
filtered counts by the indicator values at that point. -/
theorem card_filter_point {n j : Nat} (hj : j < n) (f g : TokenId → Option AccountId)
    (hfg : ∀ i, i ≠ j → f i = g i) (a : AccountId) :
    ((Finset.range n).filter (fun i => f i = some a)).card
      + (if g j = some a then 1 else 0)
    = ((Finset.range n).filter (fun i => g i = some a)).card
      + (if f j = some a then 1 else 0) := by
  have hmem : j ∈ Finset.range n := Finset.mem_range.mpr hj
  rw [Finset.card_filter, Finset.card_filter]
  rw [← Finset.sum_erase_add _ _ hmem, ← Finset.sum_erase_add _ _ hmem]
  have hsame : (∑ i ∈ (Finset.range n).erase j, if f i = some a then 1 else 0)
      = ∑ i ∈ (Finset.range n).erase j, if g i = some a then 1 else 0 := by
    refine Finset.sum_congr rfl ?_
    intro i hi
    rw [hfg i (Finset.ne_of_mem_erase hi)]
  rw [hsame]
  ring

/-- Count of owned tokens after overwriting the owner table at one point. -/
theorem cnt_update_point {n j : Nat} (hj : j < n) (f : TokenId → Option AccountId)
    (v : Option AccountId) (a : AccountId) :
    ((Finset.range n).filter (fun i => (if i = j then v else f i) = some a)).card
      + (if f j = some a then 1 else 0)
    = ((Finset.range n).filter (fun i => f i = some a)).card
      + (if v = some a then 1 else 0) := by
  have h := card_filter_point hj (fun i => if i = j then v else f i) f
    (fun i hi => by show (if i = j then v else f i) = f i; rw [if_neg hi]) a
  simpa using h

/-- Count of owned tokens after extending the range by a fresh id owned
by `v`. -/
theorem cnt_extend_point {n : Nat} (f : TokenId → Option AccountId) (v : AccountId)
    (a : AccountId) :
    ((Finset.range (n + 1)).filter (fun i => (if i = n then some v else f i) = some a)).card
    = ((Finset.range n).filter (fun i => f i = some a)).card + (if v = a then 1 else 0) := by
  rw [Finset.range_succ, Finset.filter_insert]
  have hrest : (Finset.range n).filter (fun i => (if i = n then some v else f i) = some a)
      = (Finset.range n).filter (fun i => f i = some a) := by
    refine Finset.filter_congr ?_
    intro i hi
    rw [if_neg (Nat.ne_of_lt (Finset.mem_range.mp hi))]
  by_cases hv : v = a
  · rw [if_pos (by simp [hv])]
    have hnm : n ∉ (Finset.range n).filter
        (fun i => (if i = n then some v else f i) = some a) := by
      intro hmem
      exact Nat.lt_irrefl n (Finset.mem_range.mp (Finset.mem_filter.mp hmem).1)
    rw [Finset.card_insert_of_not_mem hnm, hrest, if_pos hv]
  · rw [if_neg (by simp [hv]), hrest, if_neg hv]
    omega

/-- Invariant `ExtBound` is preserved by every successful public operation. -/
theorem step_extBound {s s' : Erc721} (hs : ExtBound s) (st : Step s s') : ExtBound s' := by
  cases st with
  | stepMint caller h =>
    obtain ⟨h1, h2, h3, h4, h5, h6, h7⟩ := mint_ok h
    intro i hi
    rw [h7] at hi
    simp only [h3]
    rw [if_neg (fun hh => Nat.not_succ_le_self i (by rw [hh] at hi; rw [hh]; exact hi))]
    exact hs i (Nat.le_of_succ_le hi)
  | stepBurn caller id h =>
    obtain ⟨h1, c, h2, h3, h4, h5, h6, h7⟩ := burn_ok h
    intro i hi
    rw [h7] at hi
    simp only [h3]
    by_cases hid : i = id
    · rw [if_pos hid]
    · rw [if_neg hid]
      exact hs i hi
  | stepTransfer caller to_ id h =>
    obtain ⟨h1, h2, h3, c, h4, h5, h6, h7, h8, h9⟩ := transfer_token_from_ok h
    intro i hi
    rw [h9] at hi
    simp only [h5]
    have hidlt : id < s.token_id := by
      by_contra hge
      rw [hs id (Nat.le_of_not_lt hge)] at h1
      simp at h1
    rw [if_neg (fun hh => Nat.lt_irrefl id (by rw [hh] at hi; exact Nat.lt_of_lt_of_le hidlt hi))]
    exact hs i hi
  | stepTransferFrom caller from_ to_ id h =>
    obtain ⟨h1, h2, h3, c, h4, h5, h6, h7, h8, h9⟩ := transfer_token_from_ok h
    intro i hi
    rw [h9] at hi
    simp only [h5]
    have hidlt : id < s.token_id := by
      by_contra hge
      rw [hs id (Nat.le_of_not_lt hge)] at h1
      simp at h1
    rw [if_neg (fun hh => Nat.lt_irrefl id (by rw [hh] at hi; exact Nat.lt_of_lt_of_le hidlt hi))]
    exact hs i hi
  | stepApprove caller to_ id h =>
    obtain ⟨h1, h2, h3, h4, h5, h6, h7, h8⟩ := approve_for_ok h
    intro i hi
    rw [h7] at hi
    rw [h4]
    exact hs i hi
  | stepSetApprovalForAll caller to_ approved h =>
    obtain ⟨h1, h2, h3, h4, h5, h6⟩ := set_approval_for_all_ok h
    intro i hi
    rw [h5] at hi
    rw [h2]
    exact hs i hi

/-- Every reachable state has all extant ids below the allocator. -/
theorem reachable_extBound {s : Erc721} (h : Reachable s) : ExtBound s := by
  induction h with
  | init => intro i _; rfl
  | step _ st ih => exact step_extBound ih st

/-- The fresh contract satisfies the balance invariant. -/
theorem invB_new : InvB Erc721.new := by
  constructor
  · intro i _
    rfl
  · intro a
    unfold balance_of cntOwned Erc721.new
    simp

/-- Operation `mint` preserves the balance invariant. -/
theorem invB_mint {s s' : Erc721} {caller : AccountId} (hs : InvB s)
    (h : mint s caller = MsgResult.ok s') : InvB s' := by
  obtain ⟨hb, hbal⟩ := hs
  obtain ⟨h1, h2, h3, h4, h5, h6, h7⟩ := mint_ok h
  refine ⟨step_extBound hb (Step.stepMint s s' caller h), ?_⟩
  intro a
  have hcnt : cntOwned s' a = cntOwned s a + (if caller = a then 1 else 0) := by
    unfold cntOwned
    simp only [h3, h7]
    exact cnt_extend_point s.token_owner caller a
  have hbal' : balance_of s' a
      = if a = caller then balance_of s caller + 1 else balance_of s a := by
    unfold balance_of
    simp only [h4]
    by_cases ha : a = caller
    · rw [if_pos ha, if_pos ha]
      rfl
    · rw [if_neg ha, if_neg ha]
  rw [hbal', hcnt]
  by_cases ha : a = caller
  · subst ha
    rw [if_pos rfl, if_pos rfl, hbal a]
  · rw [if_neg ha, if_neg (fun hc => ha hc.symm), hbal a]
    omega

/-- Operation `burn` preserves the balance invariant. -/
theorem invB_burn {s s' : Erc721} {caller : AccountId} {id : TokenId} (hs : InvB s)
    (h : burn s caller id = MsgResult.ok s') : InvB s' := by
  obtain ⟨hb, hbal⟩ := hs
  obtain ⟨h1, c, h2, h3, h4, h5, h6, h7⟩ := burn_ok h
  have hidlt : id < s.token_id := by
    by_contra hge
    rw [hb id (Nat.le_of_not_lt hge)] at h1
    cases h1
  refine ⟨step_extBound hb (Step.stepBurn s s' caller id h), ?_⟩
  intro a
  have hcnt' : cntOwned s' a + (if s.token_owner id = some a then 1 else 0)
      = cntOwned s a := by
    unfold cntOwned
    simp only [h3, h7]
    have hgen := cnt_update_point hidlt s.token_owner none a
    simpa using hgen
  have hbal' : balance_of s' a = if a = caller then c - 1 else balance_of s a := by
    unfold balance_of
    simp only [h4]
    by_cases ha : a = caller
    · rw [if_pos ha, if_pos ha]
      rfl
    · rw [if_neg ha, if_neg ha]
  have hcge : 1 ≤ cntOwned s caller := by
    have hmem : id ∈ (Finset.range s.token_id).filter
        (fun i => s.token_owner i = some caller) :=
      Finset.mem_filter.mpr ⟨Finset.mem_range.mpr hidlt, h1⟩
    exact Finset.card_pos.mpr ⟨id, hmem⟩
  have hbceq : balance_of s caller = c := by
    unfold balance_of
    rw [h2]
    rfl
  by_cases ha : a = caller
  · have hg1 : balance_of s' a = c - 1 := by
      rw [hbal']
      exact if_pos ha
    have hg2 : cntOwned s' a + 1 = cntOwned s a := by
      rw [h1] at hcnt'
      have hca : some caller = some a := by rw [ha]
      rw [if_pos hca] at hcnt'
      exact hcnt'
    have he1 := hbal a
    have hba : balance_of s a = c := by rw [ha]; exact hbceq
    have hca2 : 1 ≤ cntOwned s a := by rw [ha]; exact hcge
    omega
  · have hg1 : balance_of s' a = balance_of s a := by
      rw [hbal']
      exact if_neg ha
    have hneq : ¬ s.token_owner id = some a := by
      rw [h1]
      intro hcon
      exact ha (Option.some.inj hcon).symm
    have hg2 : cntOwned s' a = cntOwned s a := by
      rw [if_neg hneq] at hcnt'
      omega
    have he1 := hbal a
    omega

/-- Operation `transfer_token_from` preserves the balance invariant when the `from`
argument is the token's current owner. -/
theorem invB_transfer {s s' : Erc721} {caller from_ to_ : AccountId} {id : TokenId}
    (hs : InvB s) (hown : s.token_owner id = some from_)
    (h : transfer_token_from s caller from_ to_ id = MsgResult.ok s') : InvB s' := by
  obtain ⟨hb, hbal⟩ := hs
  obtain ⟨h1, h2, h3, c, h4, h5, h6, h7, h8, h9⟩ := transfer_token_from_ok h
  have hidlt : id < s.token_id := by
    by_contra hge
    rw [hb id (Nat.le_of_not_lt hge)] at h1
    simp at h1
  refine ⟨step_extBound hb (Step.stepTransferFrom s s' caller from_ to_ id h), ?_⟩
  intro a
  have hcnt' : cntOwned s' a + (if s.token_owner id = some a then 1 else 0)
      = cntOwned s a + (if to_ = a then 1 else 0) := by
    unfold cntOwned
    simp only [h5, h9]
    have hgen := cnt_update_point hidlt s.token_owner (some to_) a
    simpa using hgen
  have hbal' : balance_of s' a
      = if a = to_ then (if to_ = from_ then c - 1 else balance_of s to_) + 1
        else if a = from_ then c - 1 else balance_of s a := by
    unfold balance_of
    simp only [h7]
    by_cases ha : a = to_
    · rw [if_pos ha, if_pos ha]
      rfl
    · rw [if_neg ha, if_neg ha]
      by_cases ha2 : a = from_
      · rw [if_pos ha2, if_pos ha2]
        rfl
      · rw [if_neg ha2, if_neg ha2]
  have hfcnt : 1 ≤ cntOwned s from_ := by
    have hmem : id ∈ (Finset.range s.token_id).filter
        (fun i => s.token_owner i = some from_) :=
      Finset.mem_filter.mpr ⟨Finset.mem_range.mpr hidlt, hown⟩
    exact Finset.card_pos.mpr ⟨id, hmem⟩
  have hbceq : balance_of s from_ = c := by
    unfold balance_of
    rw [h4]
    rfl
  have hite : (if s.token_owner id = some a then 1 else 0)
      = (if from_ = a then 1 else 0) := by
    rw [hown]
    by_cases hf : from_ = a
    · rw [if_pos hf, if_pos (by rw [hf])]
    · rw [if_neg hf, if_neg (fun hc => hf (Option.some.inj hc))]
  rw [hite] at hcnt'
  have he1 := hbal a
  by_cases hat : a = to_
  · have hta : to_ = a := hat.symm
    by_cases htf : to_ = from_
    · have hfa : from_ = a := by rw [← htf, hta]
      have hg1 : balance_of s' a = (c - 1) + 1 := by
        rw [hbal', if_pos hat, if_pos htf]
      have hg2 : cntOwned s' a + 1 = cntOwned s a + 1 := by
        rw [if_pos hfa, if_pos hta] at hcnt'
        exact hcnt'
      have hba : balance_of s a = c := by rw [hfa] at hbceq; exact hbceq
      have hca : 1 ≤ cntOwned s a := by rw [hfa] at hfcnt; exact hfcnt
      omega
    · have hnfa : ¬ from_ = a := fun hfa => htf (by rw [hfa, hat])
      have hg1 : balance_of s' a = balance_of s to_ + 1 := by
        rw [hbal', if_pos hat, if_neg htf]
      have hg2 : cntOwned s' a = cntOwned s a + 1 := by
        rw [if_neg hnfa, if_pos hta] at hcnt'
        omega
      have hbta : balance_of s to_ = balance_of s a := by rw [hat]
      omega
  · have hnta : ¬ to_ = a := fun hta => hat hta.symm
    by_cases haf : a = from_
    · have hfa : from_ = a := haf.symm
      have hg1 : balance_of s' a = c - 1 := by
        rw [hbal', if_neg hat, if_pos haf]
      have hg2 : cntOwned s' a + 1 = cntOwned s a := by
        rw [if_pos hfa, if_neg hnta] at hcnt'
        omega
      have hba : balance_of s a = c := by rw [hfa] at hbceq; exact hbceq
      have hca : 1 ≤ cntOwned s a := by rw [hfa] at hfcnt; exact hfcnt
      omega
    · have hnfa : ¬ from_ = a := fun hfa => haf hfa.symm
      have hg1 : balance_of s' a = balance_of s a := by
        rw [hbal', if_neg hat, if_neg haf]
      have hg2 : cntOwned s' a = cntOwned s a := by
        rw [if_neg hnfa, if_neg hnta] at hcnt'
        omega
      omega

/-- Operation `approve` preserves the balance invariant. -/
theorem invB_approve {s s' : Erc721} {caller to_ : AccountId} {id : TokenId} (hs : InvB s)
    (h : approve_for s caller to_ id = MsgResult.ok s') : InvB s' := by
  obtain ⟨hb, hbal⟩ := hs
  obtain ⟨h1, h2, h3, h4, h5, h6, h7, h8⟩ := approve_for_ok h
  constructor
  · intro i hi
    rw [h7] at hi
    rw [h4]
    exact hb i hi
  · intro a
    have hb1 : balance_of s' a = balance_of s a := by
      unfold balance_of
      rw [h5]
    have hc1 : cntOwned s' a = cntOwned s a := by
      unfold cntOwned
      rw [h4, h7]
    rw [hb1, hc1]
    exact hbal a

/-- Operation `set_approval_for_all` preserves the balance invariant. -/
theorem invB_safa {s s' : Erc721} {caller to_ : AccountId} {approved : Bool} (hs : InvB s)
    (h : set_approval_for_all s caller to_ approved = MsgResult.ok s') : InvB s' := by
  obtain ⟨hb, hbal⟩ := hs
  obtain ⟨h1, h2, h3, h4, h5, h6⟩ := set_approval_for_all_ok h
  constructor
  · intro i hi
    rw [h5] at hi
    rw [h2]
    exact hb i hi
  · intro a
    have hb1 : balance_of s' a = balance_of s a := by
      unfold balance_of
      rw [h4]
    have hc1 : cntOwned s' a = cntOwned s a := by
      unfold cntOwned
      rw [h2, h5]
    rw [hb1, hc1]
    exact hbal a

/-- Every owner-correct reachable state satisfies the balance invariant. -/
theorem goodReachable_invB {s : Erc721} (h : GoodReachable s) : InvB s := by
  induction h with
  | init => exact invB_new
  | step _ st ih =>
    cases st with
    | stepMint caller h => exact invB_mint ih h
    | stepBurn caller id h => exact invB_burn ih h
    | stepTransfer caller to_ id hown h => exact invB_transfer ih hown h
    | stepTransferFrom caller from_ to_ id hown h => exact invB_transfer ih hown h
    | stepApprove caller to_ id h => exact invB_approve ih h
    | stepSetApprovalForAll caller to_ approved h => exact invB_safa ih h

/-- The fresh contract has no approvals. -/
theorem apEx_new : ApEx Erc721.new := by
  intro id h
  cases h

/-- Operation `mint` preserves the approval-implies-extant invariant. -/
theorem apEx_mint {s s' : Erc721} {caller : AccountId} (hs : ApEx s)
    (h : mint s caller = MsgResult.ok s') : ApEx s' := by
  obtain ⟨h1, h2, h3, h4, h5, h6, h7⟩ := mint_ok h
  intro id hap
  rw [h5] at hap
  simp only [h3]
  by_cases hid : id = s.token_id
  · rw [if_pos hid]
    rfl
  · rw [if_neg hid]
    exact hs id hap

/-- Operation `transfer_token_from` preserves the approval-implies-extant invariant. -/
theorem apEx_transfer {s s' : Erc721} {caller from_ to_ : AccountId} {id : TokenId}
    (hs : ApEx s) (h : transfer_token_from s caller from_ to_ id = MsgResult.ok s') :
    ApEx s' := by
  obtain ⟨h1, h2, h3, c, h4, h5, h6, h7, h8, h9⟩ := transfer_token_from_ok h
  intro id2 hap
  simp only [h6] at hap
  simp only [h5]
  by_cases hid : id2 = id
  · rw [if_pos hid] at hap
    cases hap
  · rw [if_neg hid] at hap
    rw [if_neg hid]
    exact hs id2 hap

/-- Operation `approve` preserves the approval-implies-extant invariant: the record
is only inserted after a successful owner lookup. -/
theorem apEx_approve {s s' : Erc721} {caller to_ : AccountId} {id : TokenId}
    (hs : ApEx s) (h : approve_for s caller to_ id = MsgResult.ok s') : ApEx s' := by
  obtain ⟨h1, h2, h3, h4, h5, h6, h7, h8⟩ := approve_for_ok h
  intro id2 hap
  simp only [h8] at hap
  simp only [h4]
  by_cases hid : id2 = id
  · subst hid
    obtain ⟨o, ho, _⟩ := h1
    rw [ho]
    rfl
  · rw [if_neg hid] at hap
    exact hs id2 hap

/-- Operation `set_approval_for_all` preserves the approval-implies-extant invariant. -/
theorem apEx_safa {s s' : Erc721} {caller to_ : AccountId} {approved : Bool}
    (hs : ApEx s) (h : set_approval_for_all s caller to_ approved = MsgResult.ok s') :
    ApEx s' := by
  obtain ⟨h1, h2, h3, h4, h5, h6⟩ := set_approval_for_all_ok h
  intro id2 hap
  rw [h3] at hap
  rw [h2]
  exact hs id2 hap

/-- Every state reachable without `burn` keeps approvals only on extant
tokens. -/
theorem noBurnReachable_apEx {s : Erc721} (h : NoBurnReachable s) : ApEx s := by
  induction h with
  | init => exact apEx_new
  | step _ st ih =>
    cases st with
    | stepMint caller h => exact apEx_mint ih h
    | stepTransfer caller to_ id h => exact apEx_transfer ih h
    | stepTransferFrom caller from_ to_ id h => exact apEx_transfer ih h
    | stepApprove caller to_ id h => exact apEx_approve ih h
    | stepSetApprovalForAll caller to_ approved h => exact apEx_safa ih h

/-- On an extant token the `approved_or_owner` check never panics. -/
theorem approved_or_owner_isSome {s : Erc721} {caller : AccountId} {id : TokenId}
    (hx : (s.token_owner id).isSome = true) :
    approved_or_owner s (some caller) id ≠ none := by
  obtain ⟨o, ho⟩ := Option.isSome_iff_exists.mp hx
  unfold approved_or_owner owner_of
  rw [ho]
  by_cases h0 : (some caller : Option AccountId) = some nullAccount
  · rw [if_pos h0]
    intro hc
    cases hc
  · rw [if_neg h0]
    by_cases h1 : (some caller : Option AccountId) = some o
    · rw [if_pos h1]
      intro hc
      cases hc
    · rw [if_neg h1]
      by_cases h2 : some caller = s.token_approvals id
      · rw [if_pos h2]
        intro hc
        cases hc
      · rw [if_neg h2]
        intro hc
        cases hc

/-- On an extant token, `approved_or_owner` agrees with the specification
predicate `authSpec`. -/
theorem approved_or_owner_iff {s : Erc721} {caller : AccountId} {id : TokenId}
    (hx : (s.token_owner id).isSome = true) :
    approved_or_owner s (some caller) id = some true ↔ authSpec s caller id := by
  obtain ⟨o, ho⟩ := Option.isSome_iff_exists.mp hx
  unfold approved_or_owner authSpec owner_of get_approved
  rw [ho]
  by_cases h0 : caller = nullAccount
  · rw [if_pos (by rw [h0])]
    constructor
    · intro hc
      cases hc
    · intro hc
      exact absurd h0 hc.1
  · rw [if_neg (fun hc => h0 (Option.some.inj hc))]
    by_cases h1 : caller = o
    · rw [if_pos (by rw [h1])]
      constructor
      · intro _
        exact ⟨h0, Or.inl (by rw [h1])⟩
      · intro _
        rfl
    · rw [if_neg (fun hc => h1 (Option.some.inj hc))]
      by_cases h2 : some caller = s.token_approvals id
      · rw [if_pos h2]
        constructor
        · intro _
          exact ⟨h0, Or.inr (Or.inl h2)⟩
        · intro _
          rfl
      · rw [if_neg h2]
        constructor
        · intro hc
          have hb : approved_for_all s o caller = true := by
            have := Option.some.inj hc
            exact this
          exact ⟨h0, Or.inr (Or.inr ⟨o, rfl, hb⟩)⟩
        · intro hc
          obtain ⟨-, hc2⟩ := hc
          cases hc2 with
          | inl hc3 => exact absurd (Option.some.inj hc3) h1
          | inr hc3 =>
            cases hc3 with
            | inl hc4 => exact absurd hc4 h2
            | inr hc4 =>
              obtain ⟨o2, ho2, hb⟩ := hc4
              have heq : o = o2 := Option.some.inj ho2
              subst heq
              show some (approved_for_all s o caller) = some true
              rw [hb]

/-- Helper `remove_token_from` only fails with `TokenNotFound` or
`CannotFetchValue`. -/
theorem remove_token_from_err {s : Erc721} {from_ : AccountId} {id : TokenId} {e : Error}
    (h : remove_token_from s from_ id = Except.error e) :
    e = Error.TokenNotFound ∨ e = Error.CannotFetchValue := by
  unfold remove_token_from at h
  by_cases h1 : (s.token_owner id).isSome = false
  · rw [if_pos h1] at h
    exact Or.inl (Except.error.inj h).symm
  · rw [if_neg h1] at h
    cases hc : s.owned_tokens_count from_ with
    | none =>
      rw [hc] at h
      exact Or.inr (Except.error.inj h).symm
    | some c =>
      rw [hc] at h
      cases h

/-- Helper `add_token_to` only fails with `TokenExists` or `NotAllowed`. -/
theorem add_token_to_err {s : Erc721} {to_ : AccountId} {id : TokenId} {e : Error}
    (h : add_token_to s to_ id = Except.error e) :
    e = Error.TokenExists ∨ e = Error.NotAllowed := by
  unfold add_token_to at h
  by_cases h1 : (s.token_owner id).isSome
  · rw [if_pos h1] at h
    exact Or.inl (Except.error.inj h).symm
  · rw [if_neg h1] at h
    by_cases h2 : to_ = nullAccount
    · rw [if_pos h2] at h
      exact Or.inr (Except.error.inj h).symm
    · rw [if_neg h2] at h
      cases h

/-- On an extant token, `transfer_token_from` reports `NotApproved`
exactly when the caller fails the specification authorization predicate. -/
theorem transfer_token_from_not_approved {s : Erc721} {caller from_ to_ : AccountId}
    {id : TokenId} (hx : (s.token_owner id).isSome = true) :
    (transfer_token_from s caller from_ to_ id = MsgResult.err Error.NotApproved
      ↔ ¬ authSpec s caller id) := by
  unfold transfer_token_from
  rw [if_neg (by rw [exists_, hx]; simp)]
  cases hao : approved_or_owner s (some caller) id with
  | none => exact absurd hao (approved_or_owner_isSome hx)
  | some b =>
    cases b with
    | false =>
      simp only
      constructor
      · intro _
        intro hauth
        have := (approved_or_owner_iff hx).mpr hauth
        rw [hao] at this
        cases this
      · intro _
        trivial
    | true =>
      simp only
      have hauth : authSpec s caller id := (approved_or_owner_iff hx).mp hao
      constructor
      · intro hc
        exfalso
        cases hr : remove_token_from (clear_approval s id) from_ id with
        | error e =>
          rw [hr] at hc
          simp only at hc
          have he := remove_token_from_err hr
          have he2 := MsgResult.err.inj hc
          cases he with
          | inl h3 => rw [h3] at he2; cases he2
          | inr h3 => rw [h3] at he2; cases he2
        | ok s2 =>
          rw [hr] at hc
          simp only at hc
          cases hadd : add_token_to s2 to_ id with
          | error e =>
            rw [hadd] at hc
            simp only at hc
            have he := add_token_to_err hadd
            have he2 := MsgResult.err.inj hc
            cases he with
            | inl h3 => rw [h3] at he2; cases he2
            | inr h3 => rw [h3] at he2; cases he2
          | ok s3 =>
            rw [hadd] at hc
            simp only at hc
            cases hc
      · intro hc
        exact absurd hauth hc

/-- Constructive success of `add_token_to` on a fresh id and non-null target. -/
theorem add_token_to_succeeds (s : Erc721) (to_ : AccountId) (id : TokenId)
    (h1 : s.token_owner id = none) (h2 : to_ ≠ nullAccount) :
    add_token_to s to_ id = Except.ok { s with
      owned_tokens_count :=
        fun a => if a = to_ then some (balance_of s to_ + 1) else s.owned_tokens_count a
      token_owner := fun i => if i = id then some to_ else s.token_owner i } := by
  unfold add_token_to
  rw [if_neg (by rw [h1]; simp), if_neg h2]
  cases hb : s.owned_tokens_count to_ with
  | none => simp [hb, balance_of]
  | some c => simp [hb, balance_of]

/-- Constructive success of `remove_token_from` on an extant id when the
`from` account has a balance entry. -/
theorem remove_token_from_succeeds (s : Erc721) (from_ : AccountId) (id : TokenId) (c : Nat)
    (h1 : (s.token_owner id).isSome = true) (h2 : s.owned_tokens_count from_ = some c) :
    remove_token_from s from_ id = Except.ok { s with
      owned_tokens_count :=
        fun a => if a = from_ then some (c - 1) else s.owned_tokens_count a
      token_owner := fun i => if i = id then none else s.token_owner i } := by
  unfold remove_token_from
  rw [if_neg (by rw [h1]; simp)]
  simp only [h2]

/-- C10: `approve` on a non-extant token id panics (the `expect` on the
absent owner) for every caller, instead of returning an error. -/
theorem C10_approve_nonextant_panics (s : Erc721) (caller to_ : AccountId) (id : TokenId)
    (h : owner_of s id = none) : approve s caller to_ id = MsgResult.panic := by
  unfold approve approve_for
  rw [h]

/-- Witness for C10 at the fresh contract. -/
theorem C10_approve_nonextant_panics_witness :
    owner_of Erc721.new 1 = none ∧ approve Erc721.new 1 2 1 = MsgResult.panic :=
  ⟨rfl, C10_approve_nonextant_panics Erc721.new 1 2 1 rfl⟩

/-- C4 (amended): `burn` on a non-extant id fails with `TokenNotFound`
(not `NotOwner`), and `burn` by a non-owner of an extant id fails with
`NotOwner`. -/
theorem C4_burn_errors (s : Erc721) (caller : AccountId) (id : TokenId) :
    (owner_of s id = none → burn s caller id = MsgResult.err Error.TokenNotFound) ∧
    (∀ o, owner_of s id = some o → o ≠ caller →
      burn s caller id = MsgResult.err Error.NotOwner) := by
  constructor
  · intro hn
    unfold burn
    rw [show s.token_owner id = none from hn]
  · intro o ho hne
    unfold burn
    simp only [show s.token_owner id = some o from ho]
    rw [if_pos hne]

/-- Counterexample for C4 as frozen: burning a non-extant id returns
`TokenNotFound`, not `NotOwner`. -/
theorem C4_counterexample :
    owner_of Erc721.new 1 = none ∧
    burn Erc721.new 1 1 = MsgResult.err Error.TokenNotFound ∧
    burn Erc721.new 1 1 ≠ MsgResult.err Error.NotOwner := by
  refine ⟨rfl, rfl, ?_⟩
  intro hc
  rw [show burn Erc721.new 1 1 = MsgResult.err Error.TokenNotFound from rfl] at hc
  cases MsgResult.err.inj hc

/-- Witness for C4 (amended) at concrete states. -/
theorem C4_burn_errors_witness :
    owner_of Erc721.new 3 = none ∧
    burn Erc721.new 3 3 = MsgResult.err Error.TokenNotFound ∧
    owner_of c4st 1 = some 5 ∧
    burn c4st 2 1 = MsgResult.err Error.NotOwner :=
  ⟨rfl, (C4_burn_errors Erc721.new 3 3).1 rfl, rfl,
    (C4_burn_errors c4st 2 1).2 5 rfl (by decide)⟩

/-- C7: approvals are single-shot.  With an extant token and an
owner-or-operator caller and a non-null target: an existing approval
record makes `approve` fail with `CannotInsert`; with no record,
`approve` inserts the record (touching no other id). -/
theorem C7_single_shot (s : Erc721) (caller to_ o : AccountId) (id : TokenId)
    (hown : owner_of s id = some o)
    (hauth : o = caller ∨ approved_for_all s o caller = true)
    (hto : to_ ≠ nullAccount) :
    ((s.token_approvals id).isSome = true →
      approve s caller to_ id = MsgResult.err Error.CannotInsert) ∧
    (s.token_approvals id = none →
      ∃ s', approve s caller to_ id = MsgResult.ok s' ∧ get_approved s' id = some to_ ∧
        (∀ j, j ≠ id → s'.token_approvals j = s.token_approvals j)) := by
  have hbranch : approve s caller to_ id = approve_for_tail s to_ id := by
    unfold approve approve_for
    simp only [show owner_of s id = some o from hown]
    cases hauth with
    | inl h => rw [if_pos h]
    | inr h =>
      by_cases ho2 : o = caller
      · rw [if_pos ho2]
      · rw [if_neg ho2, if_pos h]
  constructor
  · intro hsome
    rw [hbranch]
    unfold approve_for_tail
    rw [if_neg hto, if_pos hsome]
  · intro hnone
    rw [hbranch]
    unfold approve_for_tail
    rw [if_neg hto, if_neg (by rw [hnone]; simp)]
    refine ⟨_, rfl, ?_, ?_⟩
    · show (if id = id then some to_ else s.token_approvals id) = some to_
      rw [if_pos rfl]
    · intro j hj
      show (if j = id then some to_ else s.token_approvals j) = s.token_approvals j
      rw [if_neg hj]

/-- Witness for C7: a second approve fails with `CannotInsert`; a first
approve inserts the record. -/
theorem C7_single_shot_witness :
    approve c7st1 5 7 1 = MsgResult.err Error.CannotInsert ∧
    (∃ s', approve c7st2 5 7 1 = MsgResult.ok s' ∧ get_approved s' 1 = some 7 ∧
      (∀ j, j ≠ 1 → s'.token_approvals j = c7st2.token_approvals j)) :=
  ⟨(C7_single_shot c7st1 5 7 5 1 rfl (Or.inl rfl) (by decide)).1 (by decide),
   (C7_single_shot c7st2 5 7 5 1 rfl (Or.inl rfl) (by decide)).2 rfl⟩

/-- C5: for an extant token, both `transfer` and `transfer_from` pass or
fail the `NotApproved` check according to the caller alone (null check,
ownership, single approval, or operator record of the current owner); the
`from` argument plays no role. -/
theorem C5_auth_by_caller (s : Erc721) (caller : AccountId) (id : TokenId)
    (hx : (owner_of s id).isSome = true) :
    (∀ from_ to_, transfer_from s caller from_ to_ id = MsgResult.err Error.NotApproved
        ↔ ¬ authSpec s caller id) ∧
    (∀ to_, transfer s caller to_ id = MsgResult.err Error.NotApproved
        ↔ ¬ authSpec s caller id) ∧
    (∀ f1 f2 t1 t2,
      (transfer_from s caller f1 t1 id = MsgResult.err Error.NotApproved
        ↔ transfer_from s caller f2 t2 id = MsgResult.err Error.NotApproved)) := by
  refine ⟨fun from_ to_ => transfer_token_from_not_approved hx,
          fun to_ => transfer_token_from_not_approved hx,
          fun f1 f2 t1 t2 => ?_⟩
  show transfer_token_from s caller f1 t1 id = MsgResult.err Error.NotApproved
    ↔ transfer_token_from s caller f2 t2 id = MsgResult.err Error.NotApproved
  rw [transfer_token_from_not_approved hx, transfer_token_from_not_approved hx]

/-- Witness for C5 at a concrete ledger (caller 2 holds the approval). -/
theorem C5_auth_by_caller_witness :
    ((owner_of c5st 1).isSome = true) ∧
    (transfer_from c5st 2 7 8 1 = MsgResult.err Error.NotApproved ↔ ¬ authSpec c5st 2 1) ∧
    (transfer c5st 2 8 1 = MsgResult.err Error.NotApproved ↔ ¬ authSpec c5st 2 1) ∧
    (transfer_from c5st 2 7 8 1 = MsgResult.err Error.NotApproved
      ↔ transfer_from c5st 2 9 4 1 = MsgResult.err Error.NotApproved) :=
  ⟨by decide,
   (C5_auth_by_caller c5st 2 1 (by decide)).1 7 8,
   (C5_auth_by_caller c5st 2 1 (by decide)).2.1 8,
   (C5_auth_by_caller c5st 2 1 (by decide)).2.2 7 9 8 4⟩

/-- C3 (amended): an authorized transfer of an extant token to the null
account fails with `NotAllowed` and leaves the ledger unchanged, provided
the `from` account passed (the caller, for `transfer`) has a recorded
balance of at least 1 (whether or not it is the current owner). -/
theorem C3_null_transfer (s : Erc721) (caller from_ : AccountId) (id : TokenId) (c : Nat)
    (hext : (owner_of s id).isSome = true) (hc : s.owned_tokens_count from_ = some c)
    (_hc1 : 1 ≤ c) (hauth : authSpec s caller id) :
    transfer_from s caller from_ nullAccount id = MsgResult.err Error.NotAllowed ∧
    stateAfter s (transfer_from s caller from_ nullAccount id) = s ∧
    (caller = from_ →
      transfer s caller nullAccount id = MsgResult.err Error.NotAllowed ∧
      stateAfter s (transfer s caller nullAccount id) = s) := by
  have hx : (s.token_owner id).isSome = true := hext
  have hao : approved_or_owner s (some caller) id = some true :=
    (approved_or_owner_iff hx).mpr hauth
  have hcore : transfer_token_from s caller from_ nullAccount id
      = MsgResult.err Error.NotAllowed := by
    unfold transfer_token_from
    rw [if_neg (by rw [exists_, hx]; simp), hao]
    simp only
    have hx1 : ((clear_approval s id).token_owner id).isSome = true := hx
    have hc2 : (clear_approval s id).owned_tokens_count from_ = some c := hc
    rw [remove_token_from_succeeds (clear_approval s id) from_ id c hx1 hc2]
    simp only
    have hadd : add_token_to
        { clear_approval s id with
          owned_tokens_count := fun a => if a = from_ then some (c - 1)
            else (clear_approval s id).owned_tokens_count a
          token_owner := fun i => if i = id then none
            else (clear_approval s id).token_owner i } nullAccount id
        = Except.error Error.NotAllowed := by
      unfold add_token_to
      rw [if_neg (by simp), if_pos rfl]
    rw [hadd]
  refine ⟨hcore, ?_, ?_⟩
  · rw [show transfer_from s caller from_ nullAccount id
        = MsgResult.err Error.NotAllowed from hcore]
    rfl
  · intro hcf
    subst hcf
    exact ⟨hcore, by rw [show transfer s caller nullAccount id
      = MsgResult.err Error.NotAllowed from hcore]; rfl⟩

/-- Counterexample for C3 as frozen: with an extant token, an authorized
caller and a null destination, `transfer` can return `CannotFetchValue`
(the `from` account has no balance entry), not `NotAllowed`. -/
theorem C3_counterexample :
    (owner_of c3st 1).isSome = true ∧ authSpec c3st 2 1 ∧
    transfer c3st 2 nullAccount 1 = MsgResult.err Error.CannotFetchValue ∧
    transfer c3st 2 nullAccount 1 ≠ MsgResult.err Error.NotAllowed := by
  refine ⟨by decide, ⟨by decide, Or.inr (Or.inl (by decide))⟩, rfl, ?_⟩
  intro hcon
  rw [show transfer c3st 2 nullAccount 1
      = MsgResult.err Error.CannotFetchValue from rfl] at hcon
  cases MsgResult.err.inj hcon

/-- Witness for C3 (amended): account 2, an approved non-owner holding a
recorded balance, sends token 1 of `c3st2` to the null account. -/
theorem C3_null_transfer_witness :
    (owner_of c3st2 1).isSome = true ∧ c3st2.owned_tokens_count 2 = some 1 ∧
    authSpec c3st2 2 1 ∧
    transfer_from c3st2 2 2 nullAccount 1 = MsgResult.err Error.NotAllowed ∧
    stateAfter c3st2 (transfer_from c3st2 2 2 nullAccount 1) = c3st2 ∧
    transfer c3st2 2 nullAccount 1 = MsgResult.err Error.NotAllowed := by
  have h := C3_null_transfer c3st2 2 2 1 1 (by decide) rfl (by decide)
    ⟨by decide, Or.inr (Or.inl (by decide))⟩
  exact ⟨by decide, rfl, ⟨by decide, Or.inr (Or.inl (by decide))⟩, h.1, h.2.1, (h.2.2 rfl).1⟩

/-- C2 (amended): along burn-free sequences of public operations an
approval record exists only for an extant token; `burn`, however, does
not clear approvals (see the counterexample). -/
theorem C2_approval_extant (s : Erc721) (h : NoBurnReachable s) (id : TokenId)
    (hap : (get_approved s id).isSome = true) : (owner_of s id).isSome = true :=
  noBurnReachable_apEx h id hap

/-- Counterexample for C2 as frozen: mint, approve, then burn leaves an
approval record for a token with no owner, in a reachable state. -/
theorem C2_counterexample :
    Reachable c2bad ∧ get_approved c2bad 1 = some 2 ∧ owner_of c2bad 1 = none := by
  have h1 : mint Erc721.new 1 = MsgResult.ok c2s1 := rfl
  have h2 : approve c2s1 1 2 1 = MsgResult.ok c2s2 := rfl
  have h3 : burn c2s2 1 1 = MsgResult.ok c2bad := rfl
  refine ⟨Reachable.step (Reachable.step (Reachable.step Reachable.init
    (Step.stepMint Erc721.new c2s1 1 h1)) (Step.stepApprove c2s1 c2s2 1 2 1 h2))
    (Step.stepBurn c2s2 c2bad 1 1 h3), by decide, by decide⟩

/-- Witness for C2 (amended) after a burn-free mint and approve. -/
theorem C2_approval_extant_witness :
    NoBurnReachable c2s2 ∧ (get_approved c2s2 1).isSome = true ∧
    (owner_of c2s2 1).isSome = true := by
  have hnb : NoBurnReachable c2s2 :=
    NoBurnReachable.step (NoBurnReachable.step NoBurnReachable.init
      (NoBurnStep.stepMint Erc721.new c2s1 1 rfl)) (NoBurnStep.stepApprove c2s1 c2s2 1 2 1 rfl)
  exact ⟨hnb, by decide, C2_approval_extant c2s2 hnb 1 (by decide)⟩

/-- C9: `set_approval_for_all` is idempotent on operator state (two true
calls equal one), rejects self-delegation with `NotAllowed`, and removing
an absent operator entry is a successful no-op. -/
theorem C9_safa (s : Erc721) (caller op : AccountId) (b : Bool) (hne : op ≠ caller) :
    (∃ s1, set_approval_for_all s caller op true = MsgResult.ok s1 ∧
      set_approval_for_all s1 caller op true = MsgResult.ok s1) ∧
    set_approval_for_all s caller caller b = MsgResult.err Error.NotAllowed ∧
    (s.operator_approvals (caller, op) = false →
      set_approval_for_all s caller op false = MsgResult.ok s) := by
  refine ⟨⟨{ s with operator_approvals :=
      fun p => if p = (caller, op) then true else s.operator_approvals p }, ?_, ?_⟩, ?_, ?_⟩
  · unfold set_approval_for_all approve_for_all
    rw [if_neg hne, if_pos rfl]
  · unfold set_approval_for_all approve_for_all
    rw [if_neg hne, if_pos rfl]
    refine congrArg MsgResult.ok ?_
    refine Erc721.ext rfl rfl rfl ?_ rfl
    funext p
    by_cases hp : p = (caller, op)
    · simp [hp]
    · simp [hp]
  · unfold set_approval_for_all approve_for_all
    rw [if_pos rfl]
  · intro hfalse
    unfold set_approval_for_all approve_for_all
    rw [if_neg hne]
    simp only [Bool.false_eq_true, if_false]
    refine congrArg MsgResult.ok ?_
    refine Erc721.ext rfl rfl rfl ?_ rfl
    funext p
    show (if p = (caller, op) then false else s.operator_approvals p) = s.operator_approvals p
    by_cases hp : p = (caller, op)
    · rw [if_pos hp, hp]
      exact hfalse.symm
    · rw [if_neg hp]

/-- Witness for C9 at the fresh contract. -/
theorem C9_safa_witness :
    (∃ s1, set_approval_for_all Erc721.new 1 2 true = MsgResult.ok s1 ∧
      set_approval_for_all s1 1 2 true = MsgResult.ok s1) ∧
    set_approval_for_all Erc721.new 1 1 true = MsgResult.err Error.NotAllowed ∧
    set_approval_for_all Erc721.new 1 2 false = MsgResult.ok Erc721.new := by
  have h := C9_safa Erc721.new 1 2 true (by decide)
  exact ⟨h.1, h.2.1, h.2.2 rfl⟩

/-- C1 (amended): in every state reachable by public operations in which
each transfer names the token's current owner as its `from` account, every
balance equals the number of token ids owned by that account.  A
`transfer_from` with a mismatched `from` breaks this (see the
counterexample). -/
theorem C1_balance_consistency (s : Erc721) (h : GoodReachable s) (a : AccountId) :
    balance_of s a = Set.ncard {i : TokenId | owner_of s i = some a} := by
  obtain ⟨hb, hbal⟩ := goodReachable_invB h
  have hset : {i : TokenId | owner_of s i = some a}
      = ↑((Finset.range s.token_id).filter (fun i => s.token_owner i = some a)) := by
    ext i
    simp only [Set.mem_setOf_eq, Finset.coe_filter, Finset.mem_range, owner_of]
    constructor
    · intro hi
      refine ⟨?_, hi⟩
      by_contra hge
      rw [hb i (Nat.le_of_not_lt hge)] at hi
      cases hi
    · intro hi
      exact hi.2
  rw [hset, Set.ncard_coe_Finset]
  exact hbal a

/-- Counterexample for C1 as frozen: after two mints, account 1 moves its
own token with `transfer_from` naming account 2 as `from`; in the
resulting reachable state account 1 has balance 1 but owns no token. -/
theorem C1_counterexample :
    Reachable c1bad ∧
    ¬ (balance_of c1bad 1 = Set.ncard {i : TokenId | owner_of c1bad i = some 1}) := by
  have h1 : mint Erc721.new 1 = MsgResult.ok c1s1 := rfl
  have h2 : mint c1s1 2 = MsgResult.ok c1s2 := rfl
  have h3 : transfer_from c1s2 1 2 3 1 = MsgResult.ok c1bad := rfl
  have hreach : Reachable c1bad :=
    Reachable.step (Reachable.step (Reachable.step Reachable.init
      (Step.stepMint Erc721.new c1s1 1 h1)) (Step.stepMint c1s1 c1s2 2 h2))
      (Step.stepTransferFrom c1s2 c1bad 1 2 3 1 h3)
  refine ⟨hreach, ?_⟩
  intro hfull
  have hempty : ∀ i : TokenId, ¬ (owner_of c1bad i = some 1) := by
    intro i hc
    cases i with
    | zero => exact absurd hc (by decide)
    | succ i1 =>
      cases i1 with
      | zero => exact absurd hc (by decide)
      | succ i2 =>
        cases i2 with
        | zero => exact absurd hc (by decide)
        | succ n =>
          have ht : c1bad.token_id = 3 := by decide
          have hge : c1bad.token_id ≤ Nat.succ (Nat.succ (Nat.succ n)) := by
            rw [ht]
            exact Nat.succ_le_succ (Nat.succ_le_succ (Nat.succ_le_succ (Nat.zero_le n)))
          have hnone := reachable_extBound hreach _ hge
          unfold owner_of at hc
          rw [hnone] at hc
          cases hc
  have hset : {i : TokenId | owner_of c1bad i = some 1} = (∅ : Set TokenId) :=
    Set.eq_empty_iff_forall_not_mem.mpr hempty
  rw [hset, Set.ncard_empty, show balance_of c1bad 1 = 1 from rfl] at hfull
  cases hfull

/-- Witness for C1 (amended) after one owner-correct mint. -/
theorem C1_balance_consistency_witness :
    GoodReachable c1s1 ∧
    balance_of c1s1 1 = Set.ncard {i : TokenId | owner_of c1s1 i = some 1} := by
  have hg : GoodReachable c1s1 :=
    GoodReachable.step GoodReachable.init (GoodStep.stepMint Erc721.new c1s1 1 rfl)
  exact ⟨hg, C1_balance_consistency c1s1 hg 1⟩

/-- Constructive success of `transfer_token_from`: extant token, passing
authorization, a balance entry for `from`, and a non-null destination. -/
theorem transfer_token_from_succeeds (s : Erc721) (caller from_ to_ : AccountId)
    (id : TokenId) (c : Nat)
    (hown : s.token_owner id = some from_)
    (hao : approved_or_owner s (some caller) id = some true)
    (hc : s.owned_tokens_count from_ = some c)
    (hto : to_ ≠ nullAccount) :
    ∃ s2, transfer_token_from s caller from_ to_ id = MsgResult.ok s2 := by
  have hx : (s.token_owner id).isSome = true := by
    rw [hown]
    rfl
  unfold transfer_token_from
  rw [if_neg (by rw [exists_, hx]; simp), hao]
  simp only
  rw [remove_token_from_succeeds (clear_approval s id) from_ id c
    (by show (s.token_owner id).isSome = true; exact hx)
    (by show s.owned_tokens_count from_ = some c; exact hc)]
  simp only
  rw [add_token_to_succeeds _ to_ id
    (by show (if id = id then none else s.token_owner id) = none; rw [if_pos rfl]) hto]
  exact ⟨_, rfl⟩

/-- C6: if account A owns extant token id with a positive recorded
balance, no approval is outstanding and B is a distinct non-null account,
then approve(B, id) by A succeeds and transfer_from(from=A, to=B, id)
called by B succeeds; afterwards B owns id, the approval is cleared, A's
balance dropped by exactly 1 and B's balance rose by exactly 1. -/
theorem C6_approved_transfer (s : Erc721) (A B : AccountId) (id : TokenId) (c : Nat)
    (hown : owner_of s id = some A) (hne : A ≠ B) (hB : B ≠ nullAccount)
    (hap : get_approved s id = none) (hc : s.owned_tokens_count A = some c) (hc1 : 1 ≤ c) :
    ∃ s1 s2, approve s A B id = MsgResult.ok s1 ∧
      transfer_from s1 B A B id = MsgResult.ok s2 ∧
      owner_of s2 id = some B ∧ get_approved s2 id = none ∧
      balance_of s2 A + 1 = balance_of s A ∧ balance_of s2 B = balance_of s B + 1 := by
  have h1 : approve s A B id = MsgResult.ok
      { s with token_approvals := fun j => if j = id then some B else s.token_approvals j } := by
    unfold approve approve_for
    simp only [show owner_of s id = some A from hown]
    rw [if_pos trivial]
    unfold approve_for_tail
    rw [if_neg hB, if_neg (by rw [show s.token_approvals id = none from hap]; simp)]
  have hx1 : (s.token_owner id).isSome = true := by
    rw [show s.token_owner id = some A from hown]
    rfl
  have hao2 : approved_or_owner
      { s with token_approvals := fun j => if j = id then some B else s.token_approvals j }
      (some B) id = some true :=
    (@approved_or_owner_iff
      { s with token_approvals := fun j => if j = id then some B else s.token_approvals j }
      B id hx1).mpr
      ⟨hB, Or.inr (Or.inl (by
        show (some B : Option AccountId) = (if id = id then some B else s.token_approvals id)
        rw [if_pos rfl]))⟩
  obtain ⟨s2, hs2⟩ := transfer_token_from_succeeds
    { s with token_approvals := fun j => if j = id then some B else s.token_approvals j }
    B A B id c hown hao2 hc hB
  obtain ⟨t1, t2, t3, c2, t4, t5, t6, t7, t8, t9⟩ := transfer_token_from_ok hs2
  have hc2c : c2 = c := Option.some.inj (by rw [← t4]; exact hc)
  have hbsa : balance_of s A = c := by
    unfold balance_of
    rw [hc]
    rfl
  have hBA : ¬ B = A := fun h => hne h.symm
  refine ⟨_, s2, h1, hs2, ?_, ?_, ?_, ?_⟩
  · unfold owner_of
    simp [t5]
  · unfold get_approved
    simp [t6]
  · unfold balance_of
    simp only [t7]
    simp [hne]
    rw [hc]
    simp only [Option.getD]
    omega
  · unfold balance_of
    simp only [t7]
    simp [hBA]
    rfl

/-- Witness for C6 at a concrete ledger (A = 1 owns token 1, B = 2). -/
theorem C6_approved_transfer_witness :
    owner_of c6st 1 = some 1 ∧ get_approved c6st 1 = none ∧
    (∃ s1 s2, approve c6st 1 2 1 = MsgResult.ok s1 ∧
      transfer_from s1 2 1 2 1 = MsgResult.ok s2 ∧
      owner_of s2 1 = some 2 ∧ get_approved s2 1 = none ∧
      balance_of s2 1 + 1 = balance_of c6st 1 ∧ balance_of s2 2 = balance_of c6st 2 + 1) :=
  ⟨rfl, rfl, C6_approved_transfer c6st 1 2 1 1 rfl (by decide) (by decide) rfl rfl (by decide)⟩

/-- C8: in every reachable state, `mint` by a non-null caller succeeds,
makes the caller own the freshly allocated id, raises the caller's
balance by exactly 1 and advances the allocator by 1; a second mint
succeeds likewise, so the two ids are distinct and strictly increasing
and the balance rises by exactly 2. -/
theorem C8_mint (s : Erc721) (caller : AccountId) (hr : Reachable s)
    (hcnn : caller ≠ nullAccount) :
    ∃ s' s'', mint s caller = MsgResult.ok s' ∧
      owner_of s' s.token_id = some caller ∧
      balance_of s' caller = balance_of s caller + 1 ∧
      s'.token_id = s.token_id + 1 ∧
      mint s' caller = MsgResult.ok s'' ∧
      owner_of s'' s'.token_id = some caller ∧
      s.token_id < s'.token_id ∧
      balance_of s'' caller = balance_of s caller + 2 := by
  have hb := reachable_extBound hr
  cases hm : mint s caller with
  | err e =>
    exfalso
    unfold mint at hm
    rw [add_token_to_succeeds s caller s.token_id (hb s.token_id (Nat.le_refl _)) hcnn] at hm
    cases hm
  | panic =>
    exfalso
    unfold mint at hm
    rw [add_token_to_succeeds s caller s.token_id (hb s.token_id (Nat.le_refl _)) hcnn] at hm
    cases hm
  | ok s' =>
    obtain ⟨h1, h2, h3, h4, h5, h6, h7⟩ := mint_ok hm
    have hr' : Reachable s' := Reachable.step hr (Step.stepMint s s' caller hm)
    have hb' := reachable_extBound hr'
    cases hm2 : mint s' caller with
    | err e =>
      exfalso
      unfold mint at hm2
      rw [add_token_to_succeeds s' caller s'.token_id (hb' s'.token_id (Nat.le_refl _)) hcnn]
        at hm2
      cases hm2
    | panic =>
      exfalso
      unfold mint at hm2
      rw [add_token_to_succeeds s' caller s'.token_id (hb' s'.token_id (Nat.le_refl _)) hcnn]
        at hm2
      cases hm2
    | ok s'' =>
      obtain ⟨g1, g2, g3, g4, g5, g6, g7⟩ := mint_ok hm2
      refine ⟨s', s'', rfl, ?_, ?_, h7, hm2, ?_, ?_, ?_⟩
      · unfold owner_of
        simp [h3]
      · simp [balance_of, h4, Option.getD]
      · unfold owner_of
        simp [g3]
      · rw [h7]
        exact Nat.lt_succ_self s.token_id
      · simp [balance_of, g4, h4, Option.getD]

/-- Witness for C8 at the fresh contract with caller 1. -/
theorem C8_mint_witness :
    Reachable Erc721.new ∧
    (∃ s' s'', mint Erc721.new 1 = MsgResult.ok s' ∧
      owner_of s' Erc721.new.token_id = some 1 ∧
      balance_of s' 1 = balance_of Erc721.new 1 + 1 ∧
      s'.token_id = Erc721.new.token_id + 1 ∧
      mint s' 1 = MsgResult.ok s'' ∧
      owner_of s'' s'.token_id = some 1 ∧
      Erc721.new.token_id < s'.token_id ∧
      balance_of s'' 1 = balance_of Erc721.new 1 + 2) :=
  ⟨Reachable.init, C8_mint Erc721.new 1 Reachable.init (by decide)⟩
